import Mathlib

/- Verification of the deluge-tune-crafter MIDI-to-Deluge-XML converter.
   Shallow embedding of src/deluge_midi_converter/core/midi_converter.py and
   src/deluge_midi_converter/core/xml_injector.py.  Machine integers are
   modelled as ℤ; the floating-point division inside the language builtin
   round is modelled as exact rational division followed by
   round-half-to-even, which is the documented tie-breaking of the builtin. -/

/-- Round-half-to-even rounding of a rational to an integer: the semantics of
the numeric rounding builtin used by ConversionContext.convert_time and
convert_time_dtos. -/
def roundHalfEven (q : ℚ) : ℤ :=
  if q - ⌊q⌋ < 1/2 then ⌊q⌋
  else if 1/2 < q - ⌊q⌋ then ⌊q⌋ + 1
  else if ⌊q⌋ % 2 = 0 then ⌊q⌋ else ⌊q⌋ + 1

/-- ConversionContext from midi_converter.py.  Only the fields read by the
time-conversion methods are kept: the float fields start_time, end_time and
the constant scale_value_by are never read in the converted code paths. -/
structure ConversionContext where
  source_ppq : ℤ
  dest_ppq : ℤ
  tick_offset : ℤ

/-- Exact rational value of the expression (t * dest_ppq) / source_ppq that
convert_time rounds. -/
def srcToDestExact (c : ConversionContext) (t : ℤ) : ℚ :=
  ((t * c.dest_ppq : ℤ) : ℚ) / ((c.source_ppq : ℤ) : ℚ)

/-- Exact rational value of the expression (t * source_ppq) / dest_ppq that
convert_time_dtos rounds. -/
def destToSrcExact (c : ConversionContext) (t : ℤ) : ℚ :=
  ((t * c.source_ppq : ℤ) : ℚ) / ((c.dest_ppq : ℤ) : ℚ)

/-- convert_time: source ticks to destination ticks,
round((t * dest_ppq) / source_ppq). -/
def ConversionContext.convert_time (c : ConversionContext) (t : ℤ) : ℤ :=
  roundHalfEven (srcToDestExact c t)

/-- convert_time_ro: convert_time applied to t - tick_offset. -/
def ConversionContext.convert_time_ro (c : ConversionContext) (t : ℤ) : ℤ :=
  c.convert_time (t - c.tick_offset)

/-- convert_time_dtos: destination ticks back to source ticks,
round((t * source_ppq) / dest_ppq). -/
def ConversionContext.convert_time_dtos (c : ConversionContext) (t : ℤ) : ℤ :=
  roundHalfEven (destToSrcExact c t)

/-- The uppercase hexadecimal alphabet of the emitted records. -/
def HEXCHARS : List Char :=
  ['0', '1', '2', '3', '4', '5', '6', '7', '8', '9', 'A', 'B', 'C', 'D', 'E', 'F']

/-- Single uppercase hexadecimal digit of a value below 16. -/
def hexDigit (n : ℕ) : Char :=
  if n < 10 then Char.ofNat (48 + n) else Char.ofNat (55 + n)

/-- Fixed-width big-endian hexadecimal rendering of n, used for format
specifier {v:08X} on values below 16 ^ w (where it agrees with the source,
which pads the minimal representation with leading zeros up to width w). -/
def hexPad (w : ℕ) (n : ℕ) : List Char :=
  (List.range w).map (fun i => hexDigit (n / 16 ^ (w - 1 - i) % 16))

/-- hex_lz32 from midi_converter.py: the format {v & 0xFFFFFFFF:08X}; the mask
is the mathematical mod 2^32 (nonnegative), yielding exactly 8 digits. -/
def hex_lz32 (v : ℤ) : List Char :=
  hexPad 8 (v % (2 : ℤ) ^ 32).toNat

/-- Minimal big-endian hexadecimal digits of n (empty for n = 0), with an
explicit recursion fuel that is always called with fuel ≥ number of digits. -/
def hexMinAux : ℕ → ℕ → List Char
  | 0, _ => []
  | fuel + 1, n => if n = 0 then [] else hexMinAux fuel (n / 16) ++ [hexDigit (n % 16)]

/-- Minimal uppercase hexadecimal form of n, at least one digit. -/
def hexMin (n : ℕ) : List Char :=
  if n = 0 then ['0'] else hexMinAux n n

/-- Format specifier {v:02X}: zero-pad to total width 2, the sign of a
negative value counting toward the width. -/
def fmt02X (v : ℤ) : List Char :=
  if v < 0 then
    '-' :: (List.replicate (1 - (hexMin (-v).toNat).length) '0' ++ hexMin (-v).toNat)
  else
    List.replicate (2 - (hexMin v.toNat).length) '0' ++ hexMin v.toNat

/-- A note event, in the source tick domain.  The source reads pretty_midi
notes and maps their times through midi.time_to_tick; per the data model of
the spec these are integer ticks, and velocity and pitch are integers. -/
structure Note where
  pitch : ℤ
  start : ℤ
  stop : ℤ
  velocity : ℤ

/-- Velocity byte computation of convert_midi_to_clips:
min(round(note.velocity), 127); velocity is an integer so round is the
identity.  Note there is no lower bound applied. -/
def t_dvel (v : ℤ) : ℤ := min v 127

/-- Modelled from the spec (section 4.2 step 5 wording), for comparison with
the code: clamp velocity to the closed interval [0, 127]. -/
def specClampVel (v : ℤ) : ℤ := max 0 (min v 127)

/-- Destination-domain start tick of a note (t_dstart in the source). -/
def t_dstart (c : ConversionContext) (n : Note) : ℤ :=
  c.convert_time n.start

/-- Destination-domain duration (t_ddur in the source): the raw tick-domain
duration rescaled, not the difference of two rescaled endpoints. -/
def t_ddur (c : ConversionContext) (n : Note) : ℤ :=
  c.convert_time (n.stop - n.start)

/-- Destination-domain end tick of a note: rescaled start plus rescaled
duration (t_dnote_end in the source). -/
def t_dnoteEnd (c : ConversionContext) (n : Note) : ℤ :=
  t_dstart c n + t_ddur c n

/-- The 22-hex-character record of one note: 8 digits of destination start,
8 of destination duration, 2 of velocity, lift byte 40 and CC byte 14.  The
source applies .upper() to this string; every character produced here is
already uppercase. -/
def noteRecord (c : ConversionContext) (n : Note) : List Char :=
  hex_lz32 (t_dstart c n) ++ hex_lz32 (t_ddur c n) ++ fmt02X (t_dvel n.velocity)
    ++ ['4', '0'] ++ ['1', '4']

/-- A data-anomaly warning logged by the lane walk. -/
inductive LaneWarning : Type where
  | outOfOrder (tstart laststart : ℤ)
  | overlap (tstart lastend : ℤ)
deriving DecidableEq

/-- Mutable state of the per-lane loop of convert_midi_to_clips: the hex
accumulator laneh, last_start, last_end and the warnings logged so far. -/
structure LaneState where
  laneh : List Char
  last_start : ℤ
  last_end : ℤ
  warnings : List LaneWarning

/-- One iteration of the per-lane loop: log out-of-order and overlap warnings
(non-fatally), update last_start and last_end, and append the note's record
to the accumulator; the note is encoded with its own times in every case. -/
def laneStep (c : ConversionContext) (st : LaneState) (n : Note) : LaneState :=
  let w1 := if n.start ≤ st.last_start
    then st.warnings ++ [LaneWarning.outOfOrder n.start st.last_start]
    else st.warnings
  let w2 := if n.start < st.last_end
    then w1 ++ [LaneWarning.overlap n.start st.last_end]
    else w1
  ⟨st.laneh ++ noteRecord c n, n.start, n.stop, w2⟩

/-- Encoding of one lane: fold of laneStep over the lane's notes, starting
from laneh = "0x" and last_start = last_end = -1. -/
def encodeLane (c : ConversionContext) (lane : List Note) : LaneState :=
  lane.foldl (laneStep c) ⟨['0', 'x'], -1, -1, []⟩

/-- Ordering on notes used by the sorts: by start tick ascending. -/
def noteLE (a b : Note) : Prop := a.start ≤ b.start

instance : DecidableRel noteLE := fun a b => Int.decLe a.start b.start

instance : IsTotal Note noteLE := ⟨fun a b => Int.le_total a.start b.start⟩

instance : IsTrans Note noteLE := ⟨fun _ _ _ h1 h2 => Int.le_trans h1 h2⟩

/-- sorted(notes, key start): modelled with a stable insertion sort. -/
def sortByStart (ns : List Note) : List Note :=
  List.insertionSort noteLE ns

/-- Helper of lanePitches: insertion-ordered set insert. -/
def insertPitch (ps : List ℤ) (p : ℤ) : List ℤ :=
  if p ∈ ps then ps else ps ++ [p]

/-- The lane keys of the per-pitch grouping dict, in first-occurrence order
(dict insertion order). -/
def lanePitches (ns : List Note) : List ℤ :=
  ns.foldl (fun ps n => insertPitch ps n.pitch) []

/-- The lane of pitch p: the sorted track's notes of that pitch, sorted again
by start tick within the lane, exactly as the source does. -/
def laneNotes (ns : List Note) (p : ℤ) : List Note :=
  sortByStart ((sortByStart ns).filter (fun n => n.pitch == p))

/-- A note row of a clip: pitch y and the concatenated lane hex string. -/
structure NoteRow where
  y : ℤ
  noteDataWithLift : List Char

/-- Construction of one note row from the lane of pitch p. -/
def mkNoteRow (c : ConversionContext) (ns : List Note) (p : ℤ) : NoteRow :=
  ⟨p, (encodeLane c (laneNotes ns p)).laneh⟩

/-- Ordering on note rows used by the final sort: by pitch y ascending. -/
def rowLE (a b : NoteRow) : Prop := a.y ≤ b.y

instance : DecidableRel rowLE := fun a b => Int.decLe a.y b.y

instance : IsTotal NoteRow rowLE := ⟨fun a b => Int.le_total a.y b.y⟩

instance : IsTrans NoteRow rowLE := ⟨fun _ _ _ h1 h2 => Int.le_trans h1 h2⟩

/-- max(end tick over the track's notes); the source takes it over a nonempty
list (empty tracks were skipped) and applies math.ceil, the identity on
integer ticks. -/
def maxEndTick : List Note → ℤ
  | [] => 0
  | n :: rest => rest.foldl (fun a m => max a m.stop) n.stop

/-- The track's notes in the order the per-lane loops visit them: lanes in
dict insertion order, each lane in its sorted order. -/
def processedNotes (ns : List Note) : List Note :=
  (lanePitches (sortByStart ns)).flatMap (laneNotes ns)

/-- clip_max: seeded with convert_time of the maximum source end tick, then
raised to any note's destination end tick that exceeds the running value. -/
def clipLength (c : ConversionContext) (ns : List Note) : ℤ :=
  (processedNotes ns).foldl
    (fun acc n => if t_dnoteEnd c n > acc then t_dnoteEnd c n else acc)
    (c.convert_time (maxEndTick (sortByStart ns)))

/-- One clip: note rows sorted by pitch ascending plus the clip length. -/
structure Clip where
  note_rows : List NoteRow
  length : ℤ

/-- Assembly of one track's clip. -/
def mkClip (c : ConversionContext) (ns : List Note) : Clip :=
  ⟨List.insertionSort rowLE ((lanePitches (sortByStart ns)).map (mkNoteRow c ns)),
   clipLength c ns⟩

/-- One input track: pretty_midi instrument with its drum flag and notes. -/
structure Track where
  is_drum : Bool
  notes : List Note

/-- convert_midi_to_clips: skip drum tracks and tracks without notes, build
one clip per surviving track with a context of the file's resolution as
source_ppq, dest_ppq = 48 and tick_offset = 0. -/
def convert_midi_to_clips (source_ppq : ℤ) (tracks : List Track) : List Clip :=
  (tracks.filter (fun tr => !tr.is_drum && !tr.notes.isEmpty)).map
    (fun tr => mkClip ⟨source_ppq, 48, 0⟩ tr.notes)

/-- Immutable rose-tree model of an ElementTree element: tag, attributes in
document order, text and child elements (tails are not observable here). -/
inductive Element : Type where
  | mk (tag : String) (attrs : List (String × String)) (text : Option String)
      (children : List Element)

def Element.tag : Element → String
  | .mk t _ _ _ => t

def Element.attrs : Element → List (String × String)
  | .mk _ a _ _ => a

def Element.text : Element → Option String
  | .mk _ _ tx _ => tx

def Element.children : Element → List Element
  | .mk _ _ _ cs => cs

/-- Element.set semantics: replace the value of an existing attribute key in
place, else append the new pair at the end. -/
def setAttr (k v : String) : List (String × String) → List (String × String)
  | [] => [(k, v)]
  | (k1, v1) :: rest => if k1 = k then (k, v) :: rest else (k1, v1) :: setAttr k v rest

/-- Attribute lookup: value of the first pair with the given key. -/
def getAttr (k : String) : List (String × String) → Option String
  | [] => none
  | (k1, v1) :: rest => if k1 = k then some v1 else getAttr k rest

def Element.setA (e : Element) (k v : String) : Element :=
  .mk e.tag (setAttr k v e.attrs) e.text e.children

def Element.getA (e : Element) (k : String) : Option String :=
  getAttr k e.attrs

/-- Element.clear() semantics from ElementTree: removes all subelements,
clears all attributes, and resets the text to none. -/
def Element.clearElem (e : Element) : Element :=
  .mk e.tag [] none []

/-- Appending child elements (SubElement / append). -/
def Element.withChildren (e : Element) (cs : List Element) : Element :=
  .mk e.tag e.attrs e.text (e.children ++ cs)

/-- First element with the given tag among a forest, in document order: a
root of the forest matches before its own descendants, and a whole subtree
is visited before its right siblings. -/
def findList (t : String) : List Element → Option Element
  | [] => none
  | (.mk tg a tx cs) :: rest =>
      if tg = t then some (.mk tg a tx cs)
      else
        match findList t cs with
        | some r => some r
        | none => findList t rest

/-- find with path ".//tag": first matching proper descendant in document
order (the element itself is excluded). -/
def Element.findDesc (e : Element) (t : String) : Option Element :=
  findList t e.children

/-- find with path "tag": first matching direct child. -/
def Element.findChild (e : Element) (t : String) : Option Element :=
  e.children.find? (fun ch => ch.tag == t)

/-- Replacement of the first element with the given tag (same traversal order
as findList) by repl: the functional rendering of mutating the found node in
place. -/
def replaceList (t : String) (repl : Element) : List Element → List Element
  | [] => []
  | (.mk tg a tx cs) :: rest =>
      if tg = t then repl :: rest
      else
        match findList t cs with
        | some _ => .mk tg a tx (replaceList t repl cs) :: rest
        | none => .mk tg a tx cs :: replaceList t repl rest

/-- In-place mutation of the first matching proper descendant, modelled as a
functional replacement. -/
def Element.replaceDesc (e : Element) (t : String) (repl : Element) : Element :=
  .mk e.tag e.attrs e.text (replaceList t repl e.children)

def sessionClipsTag : String := "sessionClips"

def instrumentClipTag : String := "instrumentClip"

def noteRowsTag : String := "noteRows"

def noteRowTag : String := "noteRow"

def sectionKey : String := "section"

def presetKey : String := "instrumentPresetName"

def colourKey : String := "colourOffset"

def lengthKey : String := "length"

def yKey : String := "y"

def dataKey : String := "noteDataWithLift"

def zeroStr : String := "0"

def noPresetsMsg : String := "No more unique presets available"

def noColorsMsg : String := "No more unique colors available"

def tooManyMsg : String := "Too many clips. Maximum allowed: 16"

def noSessionClipsMsg : String := "Could not find sessionClips element"

def noTemplateClipMsg : String := "Could not find template instrumentClip"

def noNoteRowsMsg : String := "Could not find noteRows"

/-- The 16 fixed preset names of XMLInjector.PRESET_NAMES. -/
def PRESET_NAMES : List String :=
  ["000 Rich Saw Bass", "001 Sync Bass", "002 Basic Square Bass", "003 Synthwave Bass",
   "005 Sweet Mono Bass", "006 Vaporwave Bass", "007 Detuned Saw Bass", "009 Hoover Bass",
   "019 Fizzy Strings", "026 Pw Organ", "030 Distant Porta", "040 Spacer Leader",
   "073 Piano", "074 Electric Piano", "076 Organ", "078 House"]

/-- Color-offset pool: range(-63, 64), 127 integers. -/
def colorPool : List ℤ :=
  (List.range 127).map (fun i : ℕ => (i : ℤ) - 63)

/-- Allocator state: the used-presets and used-colors sets of the injector,
modelled as lists. -/
structure AllocSt where
  usedPresets : List String
  usedColors : List ℤ

/-- get_unique_preset: choose among the presets not yet used this pass.  The
arbitrary set ordering and random.choice of the source are modelled by an
externally supplied index r, reduced mod the number of available presets. -/
def getUniquePreset (r : ℕ) (st : AllocSt) : Except String (String × AllocSt) :=
  let avail := PRESET_NAMES.filter (fun p => !st.usedPresets.contains p)
  if h : 0 < avail.length then
    let p := avail.get ⟨r % avail.length, Nat.mod_lt r h⟩
    .ok (p, ⟨p :: st.usedPresets, st.usedColors⟩)
  else .error noPresetsMsg

/-- get_unique_color: same discipline over the 127-color pool. -/
def getUniqueColor (r : ℕ) (st : AllocSt) : Except String (ℤ × AllocSt) :=
  let avail := colorPool.filter (fun cc => !st.usedColors.contains cc)
  if h : 0 < avail.length then
    let cc := avail.get ⟨r % avail.length, Nat.mod_lt r h⟩
    .ok (cc, ⟨st.usedPresets, cc :: st.usedColors⟩)
  else .error noColorsMsg

/-- One iteration body of inject_multiple_clips: deep-copy of the template
clip, set section / instrumentPresetName / colourOffset / length, locate the
clone's noteRows descendant (error if absent), clear it, and append one
noteRow child per note row, carrying y and noteDataWithLift. -/
def buildClipElem (tmpl : Element) (preset : String) (colour : ℤ) (clip : Clip) :
    Except String Element :=
  let e1 := (((tmpl.setA sectionKey zeroStr).setA presetKey preset).setA
    colourKey (toString colour)).setA lengthKey (toString clip.length)
  match e1.findDesc noteRowsTag with
  | none => .error noNoteRowsMsg
  | some nr =>
      let rows := clip.note_rows.map (fun row =>
        Element.mk noteRowTag
          [(yKey, toString row.y), (dataKey, String.mk row.noteDataWithLift)] none [])
      .ok (e1.replaceDesc noteRowsTag (nr.clearElem.withChildren rows))

/-- The per-clip loop of inject_multiple_clips, threading the allocator state;
rp and rc supply the random choices (index i reads rp[i] and rc[i], absent
entries default to 0). -/
def injectLoop (tmpl : Element) (rp rc : List ℕ) :
    List Clip → ℕ → AllocSt → Except String (List Element)
  | [], _, _ => .ok []
  | clip :: rest, i, st =>
      match getUniquePreset (rp.getD i 0) st with
      | .error e => .error e
      | .ok pr =>
          match getUniqueColor (rc.getD i 0) pr.2 with
          | .error e => .error e
          | .ok co =>
              match buildClipElem tmpl pr.1 co.1 clip with
              | .error e => .error e
              | .ok e =>
                  match injectLoop tmpl rp rc rest (i + 1) co.2 with
                  | .error err => .error err
                  | .ok es => .ok (e :: es)

/-- inject_multiple_clips: reject more clips than presets before touching the
template, locate the clips container and the template clip, reset the
allocator, clear the container and rebuild it with one populated clone per
clip, then serialize.  A returned Except.error models the caught exception
path (return False) in which no output document is written. -/
def injectMultipleClips (template : Element) (clips : List Clip) (rp rc : List ℕ) :
    Except String Element :=
  if clips.length > PRESET_NAMES.length then
    .error tooManyMsg
  else
    match template.findDesc sessionClipsTag with
    | none => .error noSessionClipsMsg
    | some sc =>
        match sc.findChild instrumentClipTag with
        | none => .error noTemplateClipMsg
        | some tmpl =>
            match injectLoop tmpl rp rc clips 0 ⟨[], []⟩ with
            | .error e => .error e
            | .ok es =>
                .ok (template.replaceDesc sessionClipsTag (sc.clearElem.withChildren es))

/- Concrete instances used by witnesses and counterexamples. -/

/-- Context with source_ppq 960 (a common MIDI resolution) and the fixed
destination 48. -/
def ctx960 : ConversionContext := ⟨960, 48, 0⟩

/-- Context of the spec's worked example: source_ppq 220, dest_ppq 48. -/
def ctx220 : ConversionContext := ⟨220, 48, 0⟩

/-- ctx220 with a nonzero tick offset, exercising convert_time_ro. -/
def ctx220o : ConversionContext := ⟨220, 48, 5⟩

/-- Context of the spec's overlap example: source_ppq 96. -/
def ctx96 : ConversionContext := ⟨96, 48, 0⟩

/-- The quarter note of the spec's worked example: ticks 0 to 220. -/
def note220 : Note := ⟨60, 0, 220, 100⟩

/-- First note of the spec's overlap example: pitch 60, ticks 0 to 100. -/
def overlapNote1 : Note := ⟨60, 0, 100, 100⟩

/-- Second note of the spec's overlap example: pitch 60, ticks 50 to 150,
starting before the first note ends. -/
def overlapNote2 : Note := ⟨60, 50, 150, 100⟩

/-- The overlapping lane of the spec's example. -/
def overlapLane : List Note := [overlapNote1, overlapNote2]

/-- Two-pitch demo notes for the converter witnesses. -/
def demoNotes : List Note := [⟨62, 0, 96, 100⟩, ⟨60, 48, 96, 90⟩]

/-- A single non-drum track holding demoNotes. -/
def demoTracks : List Track := [⟨false, demoNotes⟩]

/-- An empty clip record, used to build oversized clip lists. -/
def emptyClip : Clip := ⟨[], 0⟩

def rootTag : String := "song"

/-- The noteRows container of the demo template. -/
def demoNR : Element := .mk noteRowsTag [] none []

/-- The template instrumentClip of the demo template. -/
def demoTmpl : Element := .mk instrumentClipTag [] none [demoNR]

/-- The sessionClips container of the demo template. -/
def demoSC : Element := .mk sessionClipsTag [] none [demoTmpl]

/-- A minimal well-formed template document. -/
def demoTemplate : Element := .mk rootTag [] none [demoSC]

/-- Two clips to inject in the C5 witness. -/
def demoClips : List Clip := [⟨[⟨60, ['0', 'x']⟩], 96⟩, ⟨[], 48⟩]

def leftoverKey : String := "width"

def leftoverVal : String := "12"

def leftoverText : String := "legacy"

/-- A sessionClips container carrying an attribute and text of its own. -/
def demoSC2 : Element := .mk sessionClipsTag [(leftoverKey, leftoverVal)] (some leftoverText) [demoTmpl]

/-- A well-formed template whose clips container carries an attribute and
text. -/
def demoTemplate2 : Element := .mk rootTag [] none [demoSC2]

/-- The document produced by injecting zero clips into demoTemplate2: the
container survives with tag only, its attribute and text stripped. -/
def demoDoc2 : Element := .mk rootTag [] none [.mk sessionClipsTag [] none []]

/- Properties of round-half-to-even. -/

theorem roundHalfEven_of_lt (q : ℚ) (h : q - ⌊q⌋ < 1/2) : roundHalfEven q = ⌊q⌋ := by
  unfold roundHalfEven
  rw [if_pos h]

theorem roundHalfEven_of_gt (q : ℚ) (h : 1/2 < q - ⌊q⌋) : roundHalfEven q = ⌊q⌋ + 1 := by
  unfold roundHalfEven
  rw [if_neg (by linarith), if_pos h]

theorem roundHalfEven_of_tie (q : ℚ) (h : q - ⌊q⌋ = 1/2) :
    roundHalfEven q = if ⌊q⌋ % 2 = 0 then ⌊q⌋ else ⌊q⌋ + 1 := by
  unfold roundHalfEven
  rw [if_neg (by linarith), if_neg (by linarith)]

theorem roundHalfEven_sub_abs_le (q : ℚ) : |q - roundHalfEven q| ≤ 1/2 := by
  have hf0 : ((⌊q⌋ : ℤ) : ℚ) ≤ q := Int.floor_le q
  have hf1 : q < ⌊q⌋ + 1 := Int.lt_floor_add_one q
  rcases lt_trichotomy (q - ⌊q⌋) (1/2) with hlt | heq | hgt
  · rw [roundHalfEven_of_lt q hlt, abs_of_nonneg (by linarith)]
    linarith
  · rw [roundHalfEven_of_tie q heq]
    split_ifs
    · rw [abs_of_nonneg (by linarith)]
      linarith
    · rw [abs_of_nonpos (by push_cast; linarith)]
      push_cast
      linarith
  · rw [roundHalfEven_of_gt q hgt, abs_of_nonpos (by push_cast; linarith)]
    push_cast
    linarith

theorem roundHalfEven_tie_even (q : ℚ) (h : |q - roundHalfEven q| = 1/2) :
    roundHalfEven q % 2 = 0 := by
  have hf0 : ((⌊q⌋ : ℤ) : ℚ) ≤ q := Int.floor_le q
  have hf1 : q < ⌊q⌋ + 1 := Int.lt_floor_add_one q
  rcases lt_trichotomy (q - ⌊q⌋) (1/2) with hlt | heq | hgt
  · rw [roundHalfEven_of_lt q hlt, abs_of_nonneg (by linarith)] at h
    linarith
  · rw [roundHalfEven_of_tie q heq]
    split_ifs with he
    · exact he
    · omega
  · rw [roundHalfEven_of_gt q hgt, abs_of_nonpos (by push_cast; linarith)] at h
    push_cast at h
    linarith

theorem roundHalfEven_unique (q : ℚ) (n : ℤ) (h1 : |q - n| ≤ 1/2)
    (h2 : |q - n| = 1/2 → n % 2 = 0) : n = roundHalfEven q := by
  have hm1 : |q - roundHalfEven q| ≤ 1/2 := roundHalfEven_sub_abs_le q
  set m := roundHalfEven q with hm
  have htri : |(m : ℚ) - n| ≤ |q - n| + |q - m| := by
    have hrw : (m : ℚ) - n = (q - n) - (q - m) := by ring
    rw [hrw]
    exact abs_sub (q - n) (q - m)
  have hdist : |((m : ℚ)) - n| ≤ 1 := by linarith
  have hdist' : |m - n| ≤ 1 := by exact_mod_cast hdist
  rcases abs_le.mp hdist' with ⟨hl, hr⟩
  rcases abs_le.mp hm1 with ⟨hma, hmb⟩
  rcases abs_le.mp h1 with ⟨hna, hnb⟩
  have hcases : n = m - 1 ∨ n = m ∨ n = m + 1 := by omega
  rcases hcases with hn | hn | hn
  · -- n = m - 1: both distances must be exactly one half, forcing m and n even
    have hqn : (n : ℚ) = (m : ℚ) - 1 := by exact_mod_cast hn
    have htie : q - m = -(1/2) := by
      rw [hqn] at hnb
      linarith
    have hmeven : m % 2 = 0 := by
      refine roundHalfEven_tie_even q ?_
      rw [← hm, abs_of_nonpos (by linarith), htie]
      norm_num
    have hneven : n % 2 = 0 := by
      refine h2 ?_
      rw [hqn, abs_of_nonneg (by linarith)]
      linarith
    omega
  · exact hn
  · -- n = m + 1: symmetric
    have hqn : (n : ℚ) = (m : ℚ) + 1 := by exact_mod_cast hn
    have htie : q - m = 1/2 := by
      rw [hqn] at hna
      linarith
    have hmeven : m % 2 = 0 := by
      refine roundHalfEven_tie_even q ?_
      rw [← hm, abs_of_nonneg (by linarith), htie]
    have hneven : n % 2 = 0 := by
      refine h2 ?_
      rw [hqn, abs_of_nonpos (by linarith)]
      linarith
    omega

theorem roundHalfEven_intCast (m : ℤ) : roundHalfEven (m : ℚ) = m := by
  have h : ((m : ℚ)) - ⌊(m : ℚ)⌋ < 1/2 := by
    rw [Int.floor_intCast]
    norm_num
  rw [roundHalfEven_of_lt _ h, Int.floor_intCast]

/- Claim C8: convert_time is round-half-to-even of (t * dest_ppq)/source_ppq,
and convert_time_ro shifts by the tick offset. -/

/-- C8: for positive source and destination PPQ, convert_time t is the
round-half-to-even rounding of the exact rational (t * dest_ppq)/source_ppq
(it is within one half of it, lands on an even integer at an exact tie, and
is the unique integer with these two properties), and convert_time_ro t
equals convert_time (t - tick_offset). -/
theorem convert_time_spec (c : ConversionContext) (hs : 0 < c.source_ppq)
    (hd : 0 < c.dest_ppq) (t : ℤ) :
    (|srcToDestExact c t - c.convert_time t| ≤ 1/2
      ∧ (|srcToDestExact c t - c.convert_time t| = 1/2 → c.convert_time t % 2 = 0)
      ∧ ∀ n : ℤ, |srcToDestExact c t - n| ≤ 1/2 →
          (|srcToDestExact c t - n| = 1/2 → n % 2 = 0) → n = c.convert_time t)
    ∧ c.convert_time_ro t = c.convert_time (t - c.tick_offset) := by
  refine ⟨⟨?_, ?_, ?_⟩, rfl⟩
  · exact roundHalfEven_sub_abs_le (srcToDestExact c t)
  · exact roundHalfEven_tie_even (srcToDestExact c t)
  · intro n hn1 hn2
    exact roundHalfEven_unique (srcToDestExact c t) n hn1 hn2

/-- Witness for C8 at the spec's example PPQ pair with a nonzero offset. -/
theorem convert_time_spec_witness :
    (0 : ℤ) < 220 ∧ (0 : ℤ) < 48
      ∧ ctx220o.convert_time_ro 110 = ctx220o.convert_time (110 - 5) :=
  ⟨by norm_num, by norm_num,
    (convert_time_spec ctx220o (by norm_num [ctx220o]) (by norm_num [ctx220o]) 110).2⟩

/- Claim C1 (corrected): the round trip convert_time_dtos of convert_time is
NOT within one tick of the input for every positive PPQ pair; it is exact
under clean divisibility, and the general error obeys a bound that gives the
one-tick tolerance exactly when dest_ppq is at least source_ppq. -/

/-- Counterexample to C1 as stated: with source_ppq = 960 and dest_ppq = 48
(both positive), the tick t = 9 rescales to 0 and the round trip returns 0,
nine ticks away from t. -/
theorem roundtrip_within_one_counterexample :
    (0 : ℤ) < 960 ∧ (0 : ℤ) < 48
      ∧ ctx960.convert_time 9 = 0
      ∧ ctx960.convert_time_dtos (ctx960.convert_time 9) = 0
      ∧ ¬ (|ctx960.convert_time_dtos (ctx960.convert_time 9) - 9| ≤ 1) := by
  have hq : srcToDestExact ctx960 9 = 9/20 := by
    norm_num [srcToDestExact, ctx960]
  have hfl : ⌊(9/20 : ℚ)⌋ = 0 := by
    rw [Int.floor_eq_iff] <;> norm_num
  have hct : ctx960.convert_time 9 = 0 := by
    show roundHalfEven (srcToDestExact ctx960 9) = 0
    rw [hq, roundHalfEven_of_lt _ (by rw [hfl]; norm_num), hfl]
  have hq2 : destToSrcExact ctx960 0 = ((0 : ℤ) : ℚ) := by
    norm_num [destToSrcExact, ctx960]
  have hrt : ctx960.convert_time_dtos 0 = 0 := by
    show roundHalfEven (destToSrcExact ctx960 0) = 0
    rw [hq2, roundHalfEven_intCast]
  refine ⟨by norm_num, by norm_num, hct, by rw [hct]; exact hrt, ?_⟩
  rw [hct, hrt]
  norm_num

/-- C1 as amended: for positive source_ppq and dest_ppq, (i) the round trip
is exact whenever source_ppq divides t * dest_ppq (the clean-scaling case);
(ii) in general the round-trip error is bounded by
(source_ppq + dest_ppq) / (2 * dest_ppq); (iii) hence the round trip is
within one tick of t whenever dest_ppq ≥ source_ppq — but not for every
positive PPQ pair, as the counterexample shows. -/
theorem roundtrip_amended (c : ConversionContext) (hs : 0 < c.source_ppq)
    (hd : 0 < c.dest_ppq) (t : ℤ) :
    (c.source_ppq ∣ t * c.dest_ppq → c.convert_time_dtos (c.convert_time t) = t)
    ∧ 2 * c.dest_ppq * |c.convert_time_dtos (c.convert_time t) - t|
        ≤ c.source_ppq + c.dest_ppq
    ∧ (c.source_ppq ≤ c.dest_ppq →
        |c.convert_time_dtos (c.convert_time t) - t| ≤ 1) := by
  have hs0 : ((c.source_ppq : ℤ) : ℚ) ≠ 0 := by
    exact_mod_cast hs.ne'
  have hd0 : ((c.dest_ppq : ℤ) : ℚ) ≠ 0 := by
    exact_mod_cast hd.ne'
  have hexact : c.source_ppq ∣ t * c.dest_ppq →
      c.convert_time_dtos (c.convert_time t) = t := by
    intro hdvd
    obtain ⟨m, hm⟩ := hdvd
    have hq : srcToDestExact c t = (m : ℚ) := by
      unfold srcToDestExact
      rw [hm]
      push_cast
      field_simp
    have hct : c.convert_time t = m := by
      show roundHalfEven (srcToDestExact c t) = m
      rw [hq, roundHalfEven_intCast]
    have hq2 : destToSrcExact c m = (t : ℚ) := by
      unfold destToSrcExact
      have hms : m * c.source_ppq = t * c.dest_ppq := by
        rw [hm]
        ring
      rw [hms]
      push_cast
      field_simp
    rw [hct]
    show roundHalfEven (destToSrcExact c m) = t
    rw [hq2, roundHalfEven_intCast]
  have hbound : 2 * c.dest_ppq * |c.convert_time_dtos (c.convert_time t) - t|
      ≤ c.source_ppq + c.dest_ppq := by
    have hu : |srcToDestExact c t - (c.convert_time t : ℚ)| ≤ 1/2 :=
      roundHalfEven_sub_abs_le (srcToDestExact c t)
    have h2 : |destToSrcExact c (c.convert_time t)
        - (c.convert_time_dtos (c.convert_time t) : ℚ)| ≤ 1/2 :=
      roundHalfEven_sub_abs_le (destToSrcExact c (c.convert_time t))
    have hkey : destToSrcExact c (c.convert_time t) - (t : ℚ)
        = ((c.convert_time t : ℚ) - srcToDestExact c t)
            * (((c.source_ppq : ℤ) : ℚ) / ((c.dest_ppq : ℤ) : ℚ)) := by
      unfold destToSrcExact srcToDestExact
      field_simp
      ring
    have hsd : (0 : ℚ) < ((c.source_ppq : ℤ) : ℚ) / ((c.dest_ppq : ℤ) : ℚ) := by
      apply div_pos
      · exact_mod_cast hs
      · exact_mod_cast hd
    have habs2 : |destToSrcExact c (c.convert_time t) - (t : ℚ)|
        ≤ 1/2 * (((c.source_ppq : ℤ) : ℚ) / ((c.dest_ppq : ℤ) : ℚ)) := by
      rw [hkey, abs_mul, abs_of_pos hsd]
      apply mul_le_mul_of_nonneg_right _ (le_of_lt hsd)
      rw [abs_sub_comm]
      exact hu
    have htri : |(c.convert_time_dtos (c.convert_time t) : ℚ) - (t : ℚ)|
        ≤ 1/2 + 1/2 * (((c.source_ppq : ℤ) : ℚ) / ((c.dest_ppq : ℤ) : ℚ)) := by
      have hsplit : (c.convert_time_dtos (c.convert_time t) : ℚ) - (t : ℚ)
          = -(destToSrcExact c (c.convert_time t)
              - (c.convert_time_dtos (c.convert_time t) : ℚ))
            + (destToSrcExact c (c.convert_time t) - (t : ℚ)) := by
        ring
      calc |(c.convert_time_dtos (c.convert_time t) : ℚ) - (t : ℚ)|
          ≤ |destToSrcExact c (c.convert_time t)
              - (c.convert_time_dtos (c.convert_time t) : ℚ)|
            + |destToSrcExact c (c.convert_time t) - (t : ℚ)| := by
            rw [hsplit]
            refine le_trans (abs_add _ _) ?_
            rw [abs_neg]
        _ ≤ 1/2 + 1/2 * (((c.source_ppq : ℤ) : ℚ) / ((c.dest_ppq : ℤ) : ℚ)) := by
            exact add_le_add h2 habs2
    have hdpos : (0 : ℚ) < ((c.dest_ppq : ℤ) : ℚ) := by exact_mod_cast hd
    have hmul : 2 * ((c.dest_ppq : ℤ) : ℚ)
        * |(c.convert_time_dtos (c.convert_time t) : ℚ) - (t : ℚ)|
        ≤ ((c.source_ppq : ℤ) : ℚ) + ((c.dest_ppq : ℤ) : ℚ) := by
      have h2d : (0 : ℚ) ≤ 2 * ((c.dest_ppq : ℤ) : ℚ) := by linarith
      have := mul_le_mul_of_nonneg_left htri h2d
      have hrw : 2 * ((c.dest_ppq : ℤ) : ℚ)
          * (1/2 + 1/2 * (((c.source_ppq : ℤ) : ℚ) / ((c.dest_ppq : ℤ) : ℚ)))
          = ((c.source_ppq : ℤ) : ℚ) + ((c.dest_ppq : ℤ) : ℚ) := by
        field_simp
        ring
      linarith [hrw ▸ this]
    have hcast : ((2 * c.dest_ppq * |c.convert_time_dtos (c.convert_time t) - t| : ℤ) : ℚ)
        = 2 * ((c.dest_ppq : ℤ) : ℚ)
          * |(c.convert_time_dtos (c.convert_time t) : ℚ) - (t : ℚ)| := by
      push_cast
      ring
    exact_mod_cast hcast ▸ hmul
  refine ⟨hexact, hbound, ?_⟩
  intro hle
  by_contra hgt
  push_neg at hgt
  have h2 : 2 ≤ |c.convert_time_dtos (c.convert_time t) - t| := hgt
  nlinarith [abs_nonneg (c.convert_time_dtos (c.convert_time t) - t)]

/-- Witness for the amended C1 at the spec's example: 220 divides 110 * 48,
so the round trip through destination PPQ 48 recovers t = 110 exactly. -/
theorem roundtrip_amended_witness :
    (0 : ℤ) < 220 ∧ (0 : ℤ) < 48 ∧ (220 : ℤ) ∣ 110 * 48
      ∧ ctx220.convert_time_dtos (ctx220.convert_time 110) = 110 :=
  ⟨by norm_num, by norm_num, by norm_num,
    (roundtrip_amended ctx220 (by norm_num [ctx220]) (by norm_num [ctx220]) 110).1
      (by norm_num [ctx220])⟩

/- Well-formedness of the hexadecimal building blocks. -/

theorem hexDigit_lt_mem : ∀ n, n < 16 → hexDigit n ∈ HEXCHARS := by decide

theorem hexPad_length (w n : ℕ) : (hexPad w n).length = w := by
  simp [hexPad]

theorem hexPad_mem (w n : ℕ) : ∀ ch ∈ hexPad w n, ch ∈ HEXCHARS := by
  intro ch hch
  simp only [hexPad, List.mem_map, List.mem_range] at hch
  obtain ⟨i, _, hi⟩ := hch
  rw [← hi]
  exact hexDigit_lt_mem _ (Nat.mod_lt _ (by norm_num))

set_option maxRecDepth 4096 in
theorem hexMin_small : ∀ n, n < 256 →
    (hexMin n).length ≤ 2 ∧ ∀ ch ∈ hexMin n, ch ∈ HEXCHARS := by decide

theorem fmt02X_nonneg_eq (v : ℤ) (h0 : 0 ≤ v) :
    fmt02X v = List.replicate (2 - (hexMin v.toNat).length) '0' ++ hexMin v.toNat := by
  unfold fmt02X
  rw [if_neg (not_lt.mpr h0)]

theorem fmt02X_length (v : ℤ) (h0 : 0 ≤ v) (h1 : v ≤ 127) : (fmt02X v).length = 2 := by
  have hlt : v.toNat < 256 := by omega
  have hm := (hexMin_small v.toNat hlt).1
  rw [fmt02X_nonneg_eq v h0]
  simp only [List.length_append, List.length_replicate]
  omega

theorem fmt02X_mem (v : ℤ) (h0 : 0 ≤ v) (h1 : v ≤ 127) :
    ∀ ch ∈ fmt02X v, ch ∈ HEXCHARS := by
  have hlt : v.toNat < 256 := by omega
  intro ch hch
  rw [fmt02X_nonneg_eq v h0] at hch
  rcases List.mem_append.mp hch with hrep | hmin
  · rw [List.eq_of_mem_replicate hrep]
    decide
  · exact (hexMin_small v.toNat hlt).2 ch hmin

theorem hex_lz32_length (v : ℤ) : (hex_lz32 v).length = 8 :=
  hexPad_length 8 _

theorem hex_lz32_mem (v : ℤ) : ∀ ch ∈ hex_lz32 v, ch ∈ HEXCHARS :=
  hexPad_mem 8 _

theorem t_dvel_bounds (v : ℤ) (h0 : 0 ≤ v) : 0 ≤ t_dvel v ∧ t_dvel v ≤ 127 :=
  ⟨le_min h0 (by norm_num), min_le_right v 127⟩

/- Claim C2 (corrected): the source caps velocity above at 127 but applies no
lower clamp, so the spec's clamp-to-[0,127] only matches on nonnegative
input. -/

/-- Counterexample to C2 as stated: for input velocity -5 the code writes
min(-5, 127) = -5, not the clamped value 0. -/
theorem velocity_clamp_counterexample :
    t_dvel (-5) = -5 ∧ specClampVel (-5) = 0 ∧ t_dvel (-5) ≠ specClampVel (-5) := by
  decide

/-- C2 as amended: the velocity byte is min(velocity, 127) — inputs above 127
become 127 and inputs at most 127 pass through unchanged; the clamp into
[0, 127] described by the spec holds exactly for nonnegative inputs, and no
lower clamp is applied to negative ones. -/
theorem velocity_clamp_amended (v : ℤ) :
    t_dvel v = min v 127
    ∧ (127 < v → t_dvel v = 127)
    ∧ (v ≤ 127 → t_dvel v = v)
    ∧ (0 ≤ v → t_dvel v = specClampVel v) := by
  refine ⟨rfl, fun h => min_eq_right (le_of_lt h), fun h => min_eq_left h, fun h => ?_⟩
  unfold t_dvel specClampVel
  rw [max_eq_right (le_min h (by norm_num))]

/-- Witness for the amended C2 at velocities 200 and 100. -/
theorem velocity_clamp_amended_witness :
    ((127 : ℤ) < 200 ∧ t_dvel 200 = 127)
      ∧ ((0 : ℤ) ≤ 100 ∧ t_dvel 100 = specClampVel 100) :=
  ⟨⟨by norm_num, (velocity_clamp_amended 200).2.1 (by norm_num)⟩,
   ⟨by norm_num, (velocity_clamp_amended 100).2.2.2 (by norm_num)⟩⟩

/- Claim C3: every emitted record is 22 uppercase hex characters with the
documented layout.  Velocity obeys the data-model contract 0..127. -/

/-- C3: for any context and any note whose velocity lies in the NoteEvent
contract range [0, 127], the emitted record is exactly 22 characters, all
from the uppercase hex alphabet, laid out as 8 digits of destination start,
8 of destination duration, 2 of velocity, then the fixed lift byte 40 and
controller byte 14. -/
theorem note_record_wellformed (c : ConversionContext) (n : Note)
    (h0 : 0 ≤ n.velocity) (h1 : n.velocity ≤ 127) :
    (noteRecord c n).length = 22
    ∧ (∀ ch ∈ noteRecord c n, ch ∈ HEXCHARS)
    ∧ noteRecord c n
        = hex_lz32 (t_dstart c n) ++ hex_lz32 (t_ddur c n)
          ++ fmt02X (t_dvel n.velocity) ++ ['4', '0'] ++ ['1', '4']
    ∧ (hex_lz32 (t_dstart c n)).length = 8
    ∧ (hex_lz32 (t_ddur c n)).length = 8
    ∧ (fmt02X (t_dvel n.velocity)).length = 2 := by
  obtain ⟨hv0, hv1⟩ := t_dvel_bounds n.velocity h0
  have hflen : (fmt02X (t_dvel n.velocity)).length = 2 := fmt02X_length _ hv0 hv1
  refine ⟨?_, ?_, rfl, hex_lz32_length _, hex_lz32_length _, hflen⟩
  · simp only [noteRecord, List.length_append, hex_lz32_length, hflen]
    rfl
  · intro ch hch
    simp only [noteRecord, List.mem_append] at hch
    rcases hch with ((((hs | hd) | hf) | hl) | hc)
    · exact hex_lz32_mem _ ch hs
    · exact hex_lz32_mem _ ch hd
    · exact fmt02X_mem _ hv0 hv1 ch hf
    · simp only [List.mem_cons, List.not_mem_nil, or_false] at hl
      rcases hl with rfl | rfl <;> decide
    · simp only [List.mem_cons, List.not_mem_nil, or_false] at hc
      rcases hc with rfl | rfl <;> decide

/-- Witness for C3 at the spec's worked example: source PPQ 220, the quarter
note from tick 0 to 220 at velocity 100. -/
theorem note_record_wellformed_witness :
    (0 : ℤ) ≤ note220.velocity ∧ note220.velocity ≤ 127
      ∧ ((noteRecord ctx220 note220).length = 22
        ∧ (∀ ch ∈ noteRecord ctx220 note220, ch ∈ HEXCHARS)
        ∧ noteRecord ctx220 note220
            = hex_lz32 (t_dstart ctx220 note220) ++ hex_lz32 (t_ddur ctx220 note220)
              ++ fmt02X (t_dvel note220.velocity) ++ ['4', '0'] ++ ['1', '4']
        ∧ (hex_lz32 (t_dstart ctx220 note220)).length = 8
        ∧ (hex_lz32 (t_ddur ctx220 note220)).length = 8
        ∧ (fmt02X (t_dvel note220.velocity)).length = 2) :=
  ⟨by norm_num [note220], by norm_num [note220],
    note_record_wellformed ctx220 note220 (by norm_num [note220]) (by norm_num [note220])⟩

/- Lane encoding structure: every event contributes exactly its own record,
independent of any warnings. -/

theorem noteRecord_length22 (c : ConversionContext) (n : Note)
    (h0 : 0 ≤ n.velocity) : (noteRecord c n).length = 22 := by
  obtain ⟨hv0, hv1⟩ := t_dvel_bounds n.velocity h0
  simp [noteRecord, hex_lz32_length, fmt02X_length _ hv0 hv1]

theorem foldl_laneStep_laneh (c : ConversionContext) :
    ∀ (lane : List Note) (st : LaneState),
      (lane.foldl (laneStep c) st).laneh = st.laneh ++ (lane.map (noteRecord c)).flatten := by
  intro lane
  induction lane with
  | nil => intro st; simp
  | cons n rest ih =>
      intro st
      simp only [List.foldl_cons, List.map_cons, List.flatten_cons]
      rw [ih]
      simp [laneStep, List.append_assoc]

theorem encodeLane_laneh (c : ConversionContext) (lane : List Note) :
    (encodeLane c lane).laneh = ['0', 'x'] ++ (lane.map (noteRecord c)).flatten :=
  foldl_laneStep_laneh c lane _

/- Claim C9: anomalous lanes (out-of-order or overlapping notes) are encoded
verbatim, every event with its own record; anomalies only add warnings. -/

/-- C9: lane encoding is total and permissive — for every context and every
lane, including out-of-order and overlapping ones, the emitted lane string is
the 0x prefix followed by the concatenation of each event's own 22-character
record, in lane order, nothing dropped or altered; on the spec's overlap
example (pitch-60 notes over source ticks [0,100] and [50,150] at source PPQ
96) both records are emitted and exactly one overlap warning is logged. -/
theorem lane_encoding_permissive :
    (∀ (c : ConversionContext) (lane : List Note),
        (encodeLane c lane).laneh = ['0', 'x'] ++ (lane.map (noteRecord c)).flatten)
    ∧ (encodeLane ctx96 overlapLane).laneh
        = ['0', 'x'] ++ (noteRecord ctx96 overlapNote1 ++ noteRecord ctx96 overlapNote2)
    ∧ (encodeLane ctx96 overlapLane).warnings = [LaneWarning.overlap 50 100]
    ∧ (noteRecord ctx96 overlapNote1).length = 22
    ∧ (noteRecord ctx96 overlapNote2).length = 22 := by
  have huniv : ∀ (c : ConversionContext) (lane : List Note),
      (encodeLane c lane).laneh = ['0', 'x'] ++ (lane.map (noteRecord c)).flatten :=
    fun c lane => encodeLane_laneh c lane
  refine ⟨huniv, ?_, ?_, ?_, ?_⟩
  · rw [huniv]
    simp [overlapLane]
  · norm_num [encodeLane, overlapLane, laneStep, overlapNote1, overlapNote2]
  · exact noteRecord_length22 ctx96 overlapNote1 (by norm_num [overlapNote1])
  · exact noteRecord_length22 ctx96 overlapNote2 (by norm_num [overlapNote2])

/- Grouping and clip-length machinery for C4 and C7. -/

theorem foldl_clipmax_le (c : ConversionContext) :
    ∀ (l : List Note) (acc : ℤ),
      acc ≤ l.foldl (fun a n => if t_dnoteEnd c n > a then t_dnoteEnd c n else a) acc := by
  intro l
  induction l with
  | nil => intro acc; exact le_refl acc
  | cons n rest ih =>
      intro acc
      refine le_trans ?_ (ih _)
      by_cases h : t_dnoteEnd c n > acc
      · simp only [if_pos h]
        exact le_of_lt h
      · simp only [if_neg h]
        exact le_refl acc

theorem foldl_clipmax_mem (c : ConversionContext) :
    ∀ (l : List Note) (acc : ℤ) (n : Note), n ∈ l →
      t_dnoteEnd c n ≤ l.foldl (fun a m => if t_dnoteEnd c m > a then t_dnoteEnd c m else a) acc := by
  intro l
  induction l with
  | nil => intro acc n hn; cases hn
  | cons m rest ih =>
      intro acc n hn
      rcases List.mem_cons.mp hn with rfl | hmem
      · refine le_trans ?_ (foldl_clipmax_le c rest _)
        by_cases h : t_dnoteEnd c n > acc
        · simp only [if_pos h]
          exact le_refl _
        · simp only [if_neg h]
          exact le_of_not_lt h
      · exact ih _ n hmem

theorem insertPitch_mem (ps : List ℤ) (p x : ℤ) :
    x ∈ insertPitch ps p ↔ x ∈ ps ∨ x = p := by
  unfold insertPitch
  split_ifs with h
  · constructor
    · exact fun hx => Or.inl hx
    · rintro (hx | rfl)
      · exact hx
      · exact h
  · simp

theorem insertPitch_nodup (ps : List ℤ) (p : ℤ) (h : ps.Nodup) :
    (insertPitch ps p).Nodup := by
  unfold insertPitch
  split_ifs with hmem
  · exact h
  · refine List.Nodup.append h (List.nodup_singleton p) ?_
    intro a ha hb
    rw [List.mem_singleton] at hb
    exact hmem (hb ▸ ha)

theorem foldl_insertPitch_mem (x : ℤ) :
    ∀ (ns : List Note) (acc : List ℤ),
      (x ∈ ns.foldl (fun ps n => insertPitch ps n.pitch) acc
        ↔ x ∈ acc ∨ ∃ n ∈ ns, n.pitch = x) := by
  intro ns
  induction ns with
  | nil => intro acc; simp
  | cons n rest ih =>
      intro acc
      simp only [List.foldl_cons]
      rw [ih]
      rw [insertPitch_mem]
      constructor
      · rintro ((hx | rfl) | ⟨m, hm, hmx⟩)
        · exact Or.inl hx
        · exact Or.inr ⟨n, List.mem_cons_self n rest, rfl⟩
        · exact Or.inr ⟨m, List.mem_cons_of_mem n hm, hmx⟩
      · rintro (hx | ⟨m, hm, hmx⟩)
        · exact Or.inl (Or.inl hx)
        · rcases List.mem_cons.mp hm with rfl | hmem
          · exact Or.inl (Or.inr hmx.symm)
          · exact Or.inr ⟨m, hmem, hmx⟩

theorem mem_lanePitches (ns : List Note) (x : ℤ) :
    x ∈ lanePitches ns ↔ ∃ n ∈ ns, n.pitch = x := by
  unfold lanePitches
  rw [foldl_insertPitch_mem]
  simp

theorem foldl_insertPitch_nodup :
    ∀ (ns : List Note) (acc : List ℤ), acc.Nodup →
      (ns.foldl (fun ps n => insertPitch ps n.pitch) acc).Nodup := by
  intro ns
  induction ns with
  | nil => intro acc h; exact h
  | cons n rest ih =>
      intro acc h
      exact ih _ (insertPitch_nodup acc n.pitch h)

theorem lanePitches_nodup (ns : List Note) : (lanePitches ns).Nodup :=
  foldl_insertPitch_nodup ns [] List.nodup_nil

theorem mem_sortByStart (ns : List Note) (n : Note) :
    n ∈ sortByStart ns ↔ n ∈ ns :=
  (List.perm_insertionSort noteLE ns).mem_iff

theorem mem_laneNotes (ns : List Note) (p : ℤ) (n : Note) :
    n ∈ laneNotes ns p ↔ n ∈ ns ∧ n.pitch = p := by
  unfold laneNotes
  rw [mem_sortByStart, List.mem_filter, mem_sortByStart]
  simp [beq_iff_eq]

theorem mem_processedNotes (ns : List Note) (n : Note) (hn : n ∈ ns) :
    n ∈ processedNotes ns := by
  unfold processedNotes
  rw [List.mem_flatMap]
  refine ⟨n.pitch, ?_, ?_⟩
  · rw [mem_lanePitches]
    exact ⟨n, (mem_sortByStart ns n).mpr hn, rfl⟩
  · rw [mem_laneNotes]
    exact ⟨hn, rfl⟩

theorem t_dnoteEnd_le_clipLength (c : ConversionContext) (ns : List Note) (n : Note)
    (h : n ∈ processedNotes ns) : t_dnoteEnd c n ≤ clipLength c ns :=
  foldl_clipmax_mem c (processedNotes ns) _ n h

theorem mem_mkClip_rows (c : ConversionContext) (ns : List Note) (row : NoteRow)
    (h : row ∈ (mkClip c ns).note_rows) :
    ∃ p ∈ lanePitches (sortByStart ns), row = mkNoteRow c ns p := by
  unfold mkClip at h
  simp only at h
  have hperm := List.perm_insertionSort rowLE
    ((lanePitches (sortByStart ns)).map (mkNoteRow c ns))
  rw [hperm.mem_iff, List.mem_map] at h
  obtain ⟨p, hp, hrow⟩ := h
  exact ⟨p, hp, hrow.symm⟩

/- Claim C4: the clip length dominates every encoded note's destination end
tick. -/

/-- C4: every clip produced by convert_midi_to_clips is the assembly of some
track's notes, each of its note rows carries exactly the concatenated records
of that pitch's lane, and the clip's length is at least the destination end
tick (rescaled start plus rescaled duration) of every note encoded in any of
its rows. -/
theorem clip_length_dominates (s : ℤ) (tracks : List Track) (clip : Clip)
    (hc : clip ∈ convert_midi_to_clips s tracks) :
    ∃ ns : List Note, clip = mkClip ⟨s, 48, 0⟩ ns
      ∧ ∀ row ∈ clip.note_rows,
          row.noteDataWithLift
            = ['0', 'x'] ++ ((laneNotes ns row.y).map (noteRecord ⟨s, 48, 0⟩)).flatten
          ∧ ∀ n ∈ laneNotes ns row.y, t_dnoteEnd ⟨s, 48, 0⟩ n ≤ clip.length := by
  unfold convert_midi_to_clips at hc
  rw [List.mem_map] at hc
  obtain ⟨tr, _, hclip⟩ := hc
  refine ⟨tr.notes, hclip.symm, ?_⟩
  intro row hrow
  obtain ⟨p, hp, hrowp⟩ := mem_mkClip_rows _ _ row (by rw [← hclip] at hrow; exact hrow)
  have hy : row.y = p := by rw [hrowp]; rfl
  constructor
  · rw [hrowp]
    show (encodeLane ⟨s, 48, 0⟩ (laneNotes tr.notes p)).laneh = _
    rw [encodeLane_laneh]
    rfl
  · intro n hn
    rw [hy] at hn
    have hnp : n ∈ processedNotes tr.notes := by
      unfold processedNotes
      rw [List.mem_flatMap]
      exact ⟨p, hp, hn⟩
    have := t_dnoteEnd_le_clipLength ⟨s, 48, 0⟩ tr.notes n hnp
    rw [← hclip]
    exact this

/-- Witness for C4 on a concrete one-track conversion with two pitches. -/
theorem clip_length_dominates_witness :
    mkClip ⟨96, 48, 0⟩ demoNotes ∈ convert_midi_to_clips 96 demoTracks
      ∧ ∃ ns : List Note, mkClip ⟨96, 48, 0⟩ demoNotes = mkClip ⟨96, 48, 0⟩ ns
          ∧ ∀ row ∈ (mkClip ⟨96, 48, 0⟩ demoNotes).note_rows,
              row.noteDataWithLift
                = ['0', 'x'] ++ ((laneNotes ns row.y).map (noteRecord ⟨96, 48, 0⟩)).flatten
              ∧ ∀ n ∈ laneNotes ns row.y,
                  t_dnoteEnd ⟨96, 48, 0⟩ n ≤ (mkClip ⟨96, 48, 0⟩ demoNotes).length := by
  have hmem : mkClip ⟨96, 48, 0⟩ demoNotes ∈ convert_midi_to_clips 96 demoTracks := by
    simp [convert_midi_to_clips, demoTracks, demoNotes, List.filter]
  exact ⟨hmem, clip_length_dominates 96 demoTracks _ hmem⟩

/- Claim C7: note rows are strictly ascending in pitch. -/

theorem mkClip_rows_pairwise (c : ConversionContext) (ns : List Note) :
    List.Pairwise (fun a b : NoteRow => a.y < b.y) (mkClip c ns).note_rows := by
  unfold mkClip
  simp only
  set rows0 := (lanePitches (sortByStart ns)).map (mkNoteRow c ns) with hrows0
  have hperm := List.perm_insertionSort rowLE rows0
  have hsorted : List.Pairwise rowLE (List.insertionSort rowLE rows0) :=
    List.sorted_insertionSort rowLE rows0
  have hne0 : List.Pairwise (fun a b : NoteRow => a.y ≠ b.y) rows0 := by
    rw [hrows0, List.pairwise_map]
    have hnd : List.Pairwise (fun a b : ℤ => a ≠ b) (lanePitches (sortByStart ns)) :=
      lanePitches_nodup (sortByStart ns)
    exact hnd.imp (fun hab => hab)
  have hsymm : ∀ {x y : NoteRow}, x.y ≠ y.y → y.y ≠ x.y := fun h => h.symm
  have hne : List.Pairwise (fun a b : NoteRow => a.y ≠ b.y)
      (List.insertionSort rowLE rows0) :=
    (List.Perm.pairwise_iff hsymm hperm).mpr hne0
  exact List.Pairwise.imp₂ (fun _ _ hle hne => lt_of_le_of_ne hle hne) hsorted hne

/-- C7: in every clip produced by convert_midi_to_clips, the note rows are
strictly increasing in pitch y, so no two rows of a clip share a pitch. -/
theorem clip_rows_strictly_ascending (s : ℤ) (tracks : List Track) (clip : Clip)
    (hc : clip ∈ convert_midi_to_clips s tracks) :
    List.Pairwise (fun a b : NoteRow => a.y < b.y) clip.note_rows := by
  unfold convert_midi_to_clips at hc
  rw [List.mem_map] at hc
  obtain ⟨tr, _, hclip⟩ := hc
  rw [← hclip]
  exact mkClip_rows_pairwise ⟨s, 48, 0⟩ tr.notes

/-- Witness for C7 on the same concrete one-track conversion. -/
theorem clip_rows_strictly_ascending_witness :
    mkClip ⟨96, 48, 0⟩ demoNotes ∈ convert_midi_to_clips 96 demoTracks
      ∧ List.Pairwise (fun a b : NoteRow => a.y < b.y)
          (mkClip ⟨96, 48, 0⟩ demoNotes).note_rows := by
  have hmem : mkClip ⟨96, 48, 0⟩ demoNotes ∈ convert_midi_to_clips 96 demoTracks := by
    simp [convert_midi_to_clips, demoTracks, demoNotes, List.filter]
  exact ⟨hmem, clip_rows_strictly_ascending 96 demoTracks _ hmem⟩

/- Attribute-list lemmas. -/

theorem getAttr_setAttr_same (k v : String) :
    ∀ l : List (String × String), getAttr k (setAttr k v l) = some v
  | [] => by simp [setAttr, getAttr]
  | (k1, v1) :: rest => by
      by_cases h : k1 = k
      · rw [setAttr, if_pos h, getAttr, if_pos rfl]
      · rw [setAttr, if_neg h, getAttr, if_neg h]
        exact getAttr_setAttr_same k v rest

theorem getAttr_setAttr_ne (k1 k v : String) (hne : k1 ≠ k) :
    ∀ l : List (String × String), getAttr k (setAttr k1 v l) = getAttr k l
  | [] => by
      simp [setAttr, getAttr, hne]
  | (k2, v2) :: rest => by
      by_cases h : k2 = k1
      · subst h
        rw [setAttr, if_pos rfl]
        simp only [getAttr, if_neg hne]
      · rw [setAttr, if_neg h]
        simp only [getAttr]
        by_cases h2 : k2 = k
        · rw [if_pos h2, if_pos h2]
        · rw [if_neg h2, if_neg h2]
          exact getAttr_setAttr_ne k1 k v hne rest

/- Structural lemmas about Element operations. -/

theorem Element.setA_findDesc (e : Element) (k v t : String) :
    (e.setA k v).findDesc t = e.findDesc t := by
  cases e
  rfl

theorem Element.setA_attrs (e : Element) (k v : String) :
    (e.setA k v).attrs = setAttr k v e.attrs := by
  cases e
  rfl

theorem Element.replaceDesc_attrs (e : Element) (t : String) (r : Element) :
    (e.replaceDesc t r).attrs = e.attrs := by
  cases e
  rfl

theorem Element.replaceDesc_findDesc (e : Element) (t t2 : String) (r : Element) :
    (e.replaceDesc t r).findDesc t2 = findList t2 (replaceList t r e.children) := by
  cases e
  rfl

theorem Element.clearElem_withChildren_children (e : Element) (cs : List Element) :
    (e.clearElem.withChildren cs).children = cs := by
  cases e
  simp [Element.clearElem, Element.withChildren, Element.children]

theorem Element.clearElem_withChildren_tag (e : Element) (cs : List Element) :
    (e.clearElem.withChildren cs).tag = e.tag := by
  cases e
  rfl

theorem Element.clearElem_withChildren_attrs (e : Element) (cs : List Element) :
    (e.clearElem.withChildren cs).attrs = [] := by
  cases e
  rfl

theorem Element.clearElem_withChildren_text (e : Element) (cs : List Element) :
    (e.clearElem.withChildren cs).text = none := by
  cases e
  rfl

/- The first found element has the searched tag, and replacing the first
found element is visible to a subsequent find. -/

theorem findList_tag (t : String) :
    ∀ (cs : List Element) (x : Element), findList t cs = some x → x.tag = t
  | [], x, h => by simp [findList] at h
  | (.mk tg a tx cc) :: rest, x, h => by
      by_cases htg : tg = t
      · rw [findList, if_pos htg] at h
        injection h with h1
        rw [← h1, Element.tag, htg]
      · rw [findList, if_neg htg] at h
        cases hfc : findList t cc with
        | some r =>
            rw [hfc] at h
            injection h with h1
            rw [← h1]
            exact findList_tag t cc r hfc
        | none =>
            rw [hfc] at h
            exact findList_tag t rest x h

theorem findList_replaceList (t : String) (repl : Element) (ht : repl.tag = t) :
    ∀ (cs : List Element) (x : Element), findList t cs = some x →
      findList t (replaceList t repl cs) = some repl
  | [], x, h => by simp [findList] at h
  | (.mk tg a tx cc) :: rest, x, h => by
      by_cases htg : tg = t
      · rw [replaceList, if_pos htg]
        cases repl with
        | mk rtg ra rtx rcs =>
            have hrt : rtg = t := ht
            rw [findList, if_pos hrt]
      · rw [findList, if_neg htg] at h
        rw [replaceList, if_neg htg]
        cases hfc : findList t cc with
        | some r =>
            show findList t (Element.mk tg a tx (replaceList t repl cc) :: rest) = some repl
            rw [findList, if_neg htg, findList_replaceList t repl ht cc r hfc]
        | none =>
            rw [hfc] at h
            show findList t (Element.mk tg a tx cc :: replaceList t repl rest) = some repl
            rw [findList, if_neg htg, hfc]
            exact findList_replaceList t repl ht rest x h

/- Pool-size arithmetic for the allocator. -/

theorem length_filter_split {α : Type} (p q : α → Bool) (hpq : ∀ a, q a = !p a) :
    ∀ l : List α, (l.filter q).length + (l.filter p).length = l.length
  | [] => rfl
  | a :: l => by
      have h := length_filter_split p q hpq l
      cases hp : p a
      · have hq : q a = true := by rw [hpq, hp]; rfl
        simp [List.filter_cons, hp, hq]
        omega
      · have hq : q a = false := by rw [hpq, hp]; rfl
        simp [List.filter_cons, hp, hq]
        omega

theorem pool_length_le {α : Type} [BEq α] [LawfulBEq α] (l u : List α) (hnd : l.Nodup) :
    l.length ≤ (l.filter (fun a => !u.contains a)).length + u.length := by
  have hsplit := length_filter_split (fun a => u.contains a)
    (fun a => !u.contains a) (fun a => rfl) l
  have hsub : (l.filter (fun a => u.contains a)) ⊆ u := by
    intro a ha
    have hc := (List.mem_filter.mp ha).2
    simpa using hc
  have hlen : (l.filter (fun a => u.contains a)).length ≤ u.length :=
    (List.subperm_of_subset (hnd.filter _) hsub).length_le
  omega

theorem PRESET_NAMES_nodup : PRESET_NAMES.Nodup := by decide

theorem colorPool_length : colorPool.length = 127 := by
  rw [colorPool, List.length_map, List.length_range]

theorem colorPool_nodup : colorPool.Nodup := by
  rw [colorPool]
  refine List.Nodup.map ?_ (List.nodup_range 127)
  intro i j hij
  simp only at hij
  omega

theorem colorPool_mem_bounds (cc : ℤ) (h : cc ∈ colorPool) : -63 ≤ cc ∧ cc ≤ 63 := by
  rw [colorPool, List.mem_map] at h
  obtain ⟨i, hi, rfl⟩ := h
  rw [List.mem_range] at hi
  omega

/- Allocator success and freshness. -/

theorem getUniquePreset_ok (r : ℕ) (st : AllocSt)
    (h : st.usedPresets.length < PRESET_NAMES.length) :
    ∃ p : String,
      getUniquePreset r st = .ok (p, ⟨p :: st.usedPresets, st.usedColors⟩)
        ∧ p ∈ PRESET_NAMES ∧ p ∉ st.usedPresets := by
  have hlen := pool_length_le PRESET_NAMES st.usedPresets PRESET_NAMES_nodup
  have hpos : 0 < (PRESET_NAMES.filter (fun p => !st.usedPresets.contains p)).length := by
    omega
  refine ⟨(PRESET_NAMES.filter (fun p => !st.usedPresets.contains p)).get
    ⟨r % _, Nat.mod_lt r hpos⟩, ?_, ?_, ?_⟩
  · simp only [getUniquePreset]
    rw [dif_pos hpos]
  · have hmem := List.get_mem (PRESET_NAMES.filter (fun p => !st.usedPresets.contains p))
      (r % _) (Nat.mod_lt r hpos)
    exact (List.mem_filter.mp hmem).1
  · have hmem := List.get_mem (PRESET_NAMES.filter (fun p => !st.usedPresets.contains p))
      (r % _) (Nat.mod_lt r hpos)
    have hc := (List.mem_filter.mp hmem).2
    simpa using hc

theorem getUniqueColor_ok (r : ℕ) (st : AllocSt)
    (h : st.usedColors.length < colorPool.length) :
    ∃ cc : ℤ,
      getUniqueColor r st = .ok (cc, ⟨st.usedPresets, cc :: st.usedColors⟩)
        ∧ cc ∈ colorPool ∧ cc ∉ st.usedColors := by
  have hlen := pool_length_le colorPool st.usedColors colorPool_nodup
  have hpos : 0 < (colorPool.filter (fun cc => !st.usedColors.contains cc)).length := by
    omega
  refine ⟨(colorPool.filter (fun cc => !st.usedColors.contains cc)).get
    ⟨r % _, Nat.mod_lt r hpos⟩, ?_, ?_, ?_⟩
  · simp only [getUniqueColor]
    rw [dif_pos hpos]
  · have hmem := List.get_mem (colorPool.filter (fun cc => !st.usedColors.contains cc))
      (r % _) (Nat.mod_lt r hpos)
    exact (List.mem_filter.mp hmem).1
  · have hmem := List.get_mem (colorPool.filter (fun cc => !st.usedColors.contains cc))
      (r % _) (Nat.mod_lt r hpos)
    have hc := (List.mem_filter.mp hmem).2
    simpa using hc

/- Per-clip element construction succeeds on a well-formed template clone and
carries the allocator-issued attributes. -/

theorem buildClipElem_ok (tmpl nr : Element) (hnr : tmpl.findDesc noteRowsTag = some nr)
    (preset : String) (colour : ℤ) (clip : Clip) :
    ∃ e : Element, buildClipElem tmpl preset colour clip = .ok e
      ∧ e.getA presetKey = some preset
      ∧ e.getA colourKey = some (toString colour) := by
  have hfd : ((((tmpl.setA sectionKey zeroStr).setA presetKey preset).setA
      colourKey (toString colour)).setA lengthKey (toString clip.length)).findDesc noteRowsTag
      = some nr := by
    rw [Element.setA_findDesc, Element.setA_findDesc, Element.setA_findDesc,
      Element.setA_findDesc, hnr]
  refine ⟨((((tmpl.setA sectionKey zeroStr).setA presetKey preset).setA
      colourKey (toString colour)).setA lengthKey (toString clip.length)).replaceDesc
        noteRowsTag (nr.clearElem.withChildren (clip.note_rows.map (fun row =>
          Element.mk noteRowTag
            [(yKey, toString row.y), (dataKey, String.mk row.noteDataWithLift)] none []))),
    ?_, ?_, ?_⟩
  · simp only [buildClipElem]
    rw [hfd]
  · unfold Element.getA
    rw [Element.replaceDesc_attrs, Element.setA_attrs, Element.setA_attrs,
      Element.setA_attrs, Element.setA_attrs]
    rw [getAttr_setAttr_ne _ _ _ (by decide),
      getAttr_setAttr_ne _ _ _ (by decide), getAttr_setAttr_same]
  · unfold Element.getA
    rw [Element.replaceDesc_attrs, Element.setA_attrs, Element.setA_attrs,
      Element.setA_attrs, Element.setA_attrs]
    rw [getAttr_setAttr_ne _ _ _ (by decide), getAttr_setAttr_same]

/- The injection loop: total on a well-formed template clone while the pools
last, one element per clip, with fresh pairwise-distinct presets and colors. -/

theorem injectLoop_spec (tmpl nr : Element) (hnr : tmpl.findDesc noteRowsTag = some nr)
    (rp rc : List ℕ) :
    ∀ (clips : List Clip) (i : ℕ) (st : AllocSt),
      st.usedPresets.length + clips.length ≤ PRESET_NAMES.length →
      st.usedColors.length + clips.length ≤ colorPool.length →
      ∃ (es : List Element) (presets : List String) (colours : List ℤ),
        injectLoop tmpl rp rc clips i st = .ok es
        ∧ es.length = clips.length
        ∧ es.map (fun e => e.getA presetKey) = presets.map some
        ∧ presets.Nodup
        ∧ (∀ p ∈ presets, p ∈ PRESET_NAMES ∧ p ∉ st.usedPresets)
        ∧ es.map (fun e => e.getA colourKey) = colours.map (fun cc => some (toString cc))
        ∧ colours.Nodup
        ∧ (∀ cc ∈ colours, cc ∈ colorPool ∧ cc ∉ st.usedColors) := by
  intro clips
  induction clips with
  | nil =>
      intro i st hP hC
      exact ⟨[], [], [], rfl, rfl, rfl, List.nodup_nil, by simp, rfl, List.nodup_nil,
        by simp⟩
  | cons clip rest ih =>
      intro i st hP hC
      rw [List.length_cons] at hP hC
      obtain ⟨p, hpeq, hpPN, hpnot⟩ :=
        getUniquePreset_ok (rp.getD i 0) st (by omega)
      obtain ⟨cc, hceq, hcPool, hcnot⟩ :=
        getUniqueColor_ok (rc.getD i 0) ⟨p :: st.usedPresets, st.usedColors⟩
          (by show st.usedColors.length < colorPool.length; omega)
      obtain ⟨e, heeq, hgetp, hgetc⟩ := buildClipElem_ok tmpl nr hnr p cc clip
      obtain ⟨es, presets, colours, hloop, hlen, hmapP, hndP, hPprop, hmapC, hndC, hCprop⟩ :=
        ih (i + 1) ⟨p :: st.usedPresets, cc :: st.usedColors⟩
          (by show (p :: st.usedPresets).length + rest.length ≤ _
              rw [List.length_cons]
              omega)
          (by show (cc :: st.usedColors).length + rest.length ≤ _
              rw [List.length_cons]
              omega)
      refine ⟨e :: es, p :: presets, cc :: colours, ?_, ?_, ?_, ?_, ?_, ?_, ?_, ?_⟩
      · simp only [injectLoop, hpeq, hceq, heeq, hloop]
      · rw [List.length_cons, List.length_cons, hlen]
      · rw [List.map_cons, List.map_cons, hmapP, hgetp]
      · refine List.nodup_cons.mpr ⟨?_, hndP⟩
        intro hmem
        exact (hPprop p hmem).2 (List.mem_cons_self p st.usedPresets)
      · intro q hq
        rcases List.mem_cons.mp hq with rfl | hq2
        · exact ⟨hpPN, hpnot⟩
        · obtain ⟨hq3, hq4⟩ := hPprop q hq2
          exact ⟨hq3, fun hm => hq4 (List.mem_cons_of_mem _ hm)⟩
      · rw [List.map_cons, List.map_cons, hmapC, hgetc]
      · refine List.nodup_cons.mpr ⟨?_, hndC⟩
        intro hmem
        exact (hCprop cc hmem).2 (List.mem_cons_self cc st.usedColors)
      · intro d hd
        rcases List.mem_cons.mp hd with rfl | hd2
        · exact ⟨hcPool, hcnot⟩
        · obtain ⟨hd3, hd4⟩ := hCprop d hd2
          exact ⟨hd3, fun hm => hd4 (List.mem_cons_of_mem _ hm)⟩

/- Claim C5: injecting at most 16 clips into a well-formed template succeeds
and yields exactly one clip element per input clip, with pairwise-distinct
presets from the fixed pool and pairwise-distinct colour offsets in
[-63, 63]. -/

/-- C5: for every list of at most 16 clips and every well-formed template
(a sessionClips container holding a template instrumentClip that has a
noteRows descendant), injection succeeds for every random-choice sequence;
the written document's clips container holds exactly one clip element per
input clip, the instrumentPresetName attributes are pairwise-distinct members
of the 16-name pool, and the colourOffset attributes render pairwise-distinct
integers of [-63, 63]. -/
theorem inject_clips_unique (template : Element) (clips : List Clip) (rp rc : List ℕ)
    (hN : clips.length ≤ 16)
    (sc tmpl nr : Element)
    (hsc : template.findDesc sessionClipsTag = some sc)
    (htm : sc.findChild instrumentClipTag = some tmpl)
    (hnr : tmpl.findDesc noteRowsTag = some nr) :
    ∃ (doc sc2 : Element) (presets : List String) (colours : List ℤ),
      injectMultipleClips template clips rp rc = .ok doc
      ∧ doc.findDesc sessionClipsTag = some sc2
      ∧ sc2.children.length = clips.length
      ∧ sc2.children.map (fun e => e.getA presetKey) = presets.map some
      ∧ presets.Nodup
      ∧ (∀ p ∈ presets, p ∈ PRESET_NAMES)
      ∧ sc2.children.map (fun e => e.getA colourKey)
          = colours.map (fun cc => some (toString cc))
      ∧ colours.Nodup
      ∧ (∀ cc ∈ colours, -63 ≤ cc ∧ cc ≤ 63) := by
  have h16 : PRESET_NAMES.length = 16 := rfl
  obtain ⟨es, presets, colours, hloop, hlen, hmapP, hndP, hPprop, hmapC, hndC, hCprop⟩ :=
    injectLoop_spec tmpl nr hnr rp rc clips 0 ⟨[], []⟩
      (by show ([] : List String).length + clips.length ≤ PRESET_NAMES.length
          rw [h16]
          simpa using hN)
      (by show ([] : List ℤ).length + clips.length ≤ colorPool.length
          rw [colorPool_length]
          simp only [List.length_nil]
          omega)
  have hif : ¬ clips.length > PRESET_NAMES.length := by
    rw [h16]
    omega
  have hdoc : injectMultipleClips template clips rp rc
      = .ok (template.replaceDesc sessionClipsTag ((sc.clearElem).withChildren es)) := by
    simp only [injectMultipleClips, hsc, htm, hloop, if_neg hif]
  have htag2 : ((sc.clearElem).withChildren es).tag = sessionClipsTag := by
    rw [Element.clearElem_withChildren_tag]
    exact findList_tag sessionClipsTag template.children sc hsc
  have hfind2 : (template.replaceDesc sessionClipsTag
      ((sc.clearElem).withChildren es)).findDesc sessionClipsTag
      = some ((sc.clearElem).withChildren es) := by
    rw [Element.replaceDesc_findDesc]
    exact findList_replaceList sessionClipsTag _ htag2 template.children sc hsc
  refine ⟨_, _, presets, colours, hdoc, hfind2, ?_, ?_, hndP, ?_, ?_, hndC, ?_⟩
  · rw [Element.clearElem_withChildren_children, hlen]
  · rw [Element.clearElem_withChildren_children, hmapP]
  · intro p hp
    exact (hPprop p hp).1
  · rw [Element.clearElem_withChildren_children, hmapC]
  · intro d hd
    exact colorPool_mem_bounds d (hCprop d hd).1

/-- Witness for C5: two clips injected into the minimal demo template. -/
theorem inject_clips_unique_witness :
    demoClips.length ≤ 16
      ∧ demoTemplate.findDesc sessionClipsTag = some demoSC
      ∧ demoSC.findChild instrumentClipTag = some demoTmpl
      ∧ demoTmpl.findDesc noteRowsTag = some demoNR
      ∧ ∃ (doc sc2 : Element) (presets : List String) (colours : List ℤ),
          injectMultipleClips demoTemplate demoClips [] [] = .ok doc
          ∧ doc.findDesc sessionClipsTag = some sc2
          ∧ sc2.children.length = demoClips.length
          ∧ sc2.children.map (fun e => e.getA presetKey) = presets.map some
          ∧ presets.Nodup
          ∧ (∀ p ∈ presets, p ∈ PRESET_NAMES)
          ∧ sc2.children.map (fun e => e.getA colourKey)
              = colours.map (fun cc => some (toString cc))
          ∧ colours.Nodup
          ∧ (∀ cc ∈ colours, -63 ≤ cc ∧ cc ≤ 63) := by
  have h1 : demoTemplate.findDesc sessionClipsTag = some demoSC := by
    simp [demoTemplate, demoSC, demoTmpl, demoNR, Element.findDesc, Element.children,
      findList]
  have h2 : demoSC.findChild instrumentClipTag = some demoTmpl := by
    simp [demoSC, demoTmpl, demoNR, Element.findChild, Element.children, Element.tag,
      List.find?]
  have h3 : demoTmpl.findDesc noteRowsTag = some demoNR := by
    simp [demoTmpl, demoNR, Element.findDesc, Element.children, findList]
  exact ⟨by simp [demoClips], h1, h2, h3,
    inject_clips_unique demoTemplate demoClips [] [] (by simp [demoClips])
      demoSC demoTmpl demoNR h1 h2 h3⟩

/- Claim C6: more than 16 clips is rejected up front, independent of the
template and of the random choices, and no document is produced. -/

/-- C6: for every clip list longer than 16, inject_multiple_clips fails with
the too-many-clips error for every template (even a malformed one, since the
check precedes any template access) and every random-choice sequence, so no
output document is produced by the call. -/
theorem too_many_clips_rejected (template : Element) (clips : List Clip)
    (rp rc : List ℕ) (h : 16 < clips.length) :
    injectMultipleClips template clips rp rc = .error tooManyMsg := by
  have h16 : PRESET_NAMES.length = 16 := rfl
  have hgt : clips.length > PRESET_NAMES.length := by
    rw [h16]
    exact h
  rw [injectMultipleClips, if_pos hgt]

/-- Witness for C6: seventeen clips are rejected. -/
theorem too_many_clips_rejected_witness :
    16 < (List.replicate 17 emptyClip).length
      ∧ injectMultipleClips demoTemplate (List.replicate 17 emptyClip) [] []
          = .error tooManyMsg :=
  ⟨by simp, too_many_clips_rejected demoTemplate (List.replicate 17 emptyClip) [] []
    (by simp)⟩

/- Claim C10: clearing the clips container erases its own attributes and text
as well as its children, so template-supplied attributes on the container are
absent from every successfully written document. -/

/-- C10: whenever inject_multiple_clips succeeds, the written document's
clips container carries no attributes and no text: Element.clear resets the
container wholesale, so any attributes or text the template's container held
are gone from the output. -/
theorem cleared_container_stripped (template : Element) (clips : List Clip)
    (rp rc : List ℕ) (doc : Element)
    (h : injectMultipleClips template clips rp rc = .ok doc) :
    ∃ sc2 : Element, doc.findDesc sessionClipsTag = some sc2
      ∧ sc2.attrs = [] ∧ sc2.text = none := by
  rw [injectMultipleClips] at h
  by_cases hlen : clips.length > PRESET_NAMES.length
  · rw [if_pos hlen] at h
    exact Except.noConfusion h
  · rw [if_neg hlen] at h
    cases hsc : template.findDesc sessionClipsTag with
    | none =>
        simp only [hsc] at h
        exact Except.noConfusion h
    | some sc =>
        simp only [hsc] at h
        cases htm : sc.findChild instrumentClipTag with
        | none =>
            simp only [htm] at h
            exact Except.noConfusion h
        | some tmpl =>
            simp only [htm] at h
            cases hloop : injectLoop tmpl rp rc clips 0 ⟨[], []⟩ with
            | error err =>
                simp only [hloop] at h
                exact Except.noConfusion h
            | ok es =>
                simp only [hloop] at h
                have hdoc : template.replaceDesc sessionClipsTag
                    ((sc.clearElem).withChildren es) = doc := Except.ok.inj h
                have htag2 : ((sc.clearElem).withChildren es).tag = sessionClipsTag := by
                  rw [Element.clearElem_withChildren_tag]
                  exact findList_tag sessionClipsTag template.children sc hsc
                refine ⟨(sc.clearElem).withChildren es, ?_,
                  Element.clearElem_withChildren_attrs sc es,
                  Element.clearElem_withChildren_text sc es⟩
                rw [← hdoc, Element.replaceDesc_findDesc]
                exact findList_replaceList sessionClipsTag _ htag2 template.children sc hsc

/-- Witness for C10: a template whose clips container carries an attribute
and text; after injecting zero clips the container in the output document has
neither. -/
theorem cleared_container_stripped_witness :
    injectMultipleClips demoTemplate2 [] [] [] = .ok demoDoc2
      ∧ ∃ sc2 : Element, demoDoc2.findDesc sessionClipsTag = some sc2
          ∧ sc2.attrs = [] ∧ sc2.text = none := by
  have hEval : injectMultipleClips demoTemplate2 [] [] [] = .ok demoDoc2 := by
    simp [injectMultipleClips, demoTemplate2, demoSC2, demoTmpl, demoNR, demoDoc2,
      Element.findDesc, Element.findChild, Element.children, Element.tag,
      Element.attrs, Element.text, Element.replaceDesc, Element.clearElem,
      Element.withChildren, findList, replaceList, injectLoop, List.find?, PRESET_NAMES]
  exact ⟨hEval, cleared_container_stripped demoTemplate2 [] [] [] demoDoc2 hEval⟩
